import Mathlib

/-!
Verification of the `wheretolive` property-sync engine
(`backend/data/{auckland,wellington,qldc}/download.py`) against its
natural-language specification.

The development shallowly embeds the record-normalisation helpers
(`parse_area_label`, `parse_auckland_address`), the geometry encoder
(the `wkt_string` construction), the staged merge upsert
(`INSERT ... ON CONFLICT (object_id) DO UPDATE SET ... WHERE ...
IS DISTINCT FROM ...` executed per page with per-page commit), and the
pagination loop.  Strings are modelled as `List Char`; numeric JSON
values as `ℚ` (IEEE rounding of Python floats is abstracted: every
claim below is about which value is selected / whether parsing fails,
not about float arithmetic).
-/

namespace WhereToLive

/-- A Python/JSON attribute value as it reaches the normaliser:
absent/`None`, a string, or a number. -/
inductive PyVal where
  | vNone : PyVal
  | vStr (s : List Char) : PyVal
  | vNum (q : ℚ) : PyVal
deriving DecidableEq, Repr

/-- Python truthiness for the values above (`if not label`, `if raw_date`,
`if attr.get("LandArea")` ...): `None`, the empty string and `0` are falsy. -/
def pyTruthy : PyVal → Bool
  | .vNone => false
  | .vStr s => !s.isEmpty
  | .vNum q => q != 0

/-- ASCII whitespace stripped by Python `str.strip()` (the Unicode-only
whitespace code points do not occur in the sources' data and are omitted). -/
def isPySpace (c : Char) : Bool :=
  c = ' ' || c = '\t' || c = '\n' || c = '\r' || c = '\x0b' || c = '\x0c'

/-- Python `str.strip()`: drop leading and trailing whitespace. -/
def pyStrip (s : List Char) : List Char :=
  ((s.dropWhile isPySpace).reverse.dropWhile isPySpace).reverse

/-- The line-boundary characters of Python `str.splitlines()`
(NEL, LS and PS included; `\\r\\n` is handled as one boundary below). -/
def isLineBreak (c : Char) : Bool :=
  c = '\n' || c = '\r' || c = '\x0b' || c = '\x0c' ||
  c = '\x1c' || c = '\x1d' || c = '\x1e' || c = '\x85' ||
  c = '\u2028' || c = '\u2029'

/-- Worker for `splitlines`: `acc` is the current line, reversed. -/
def splitlinesAux : List Char → List Char → List (List Char)
  | [], acc => if acc.isEmpty then [] else [acc.reverse]
  | '\r' :: '\n' :: rest, acc => acc.reverse :: splitlinesAux rest []
  | c :: rest, acc =>
      if isLineBreak c then acc.reverse :: splitlinesAux rest []
      else splitlinesAux rest (c :: acc)

/-- Python `str.splitlines()`: split at line boundaries, no trailing empty
line for a final terminator (`"".splitlines() = []`, `"a\n".splitlines() = ["a"]`). -/
def splitlines (s : List Char) : List (List Char) :=
  splitlinesAux s []

/-! ### `parse_area_label` (auckland/download.py, lines 13-23)

`re.search(r'(\d+\.?\d*)', label)` scans for the leftmost position where a
maximal digit run, an optional dot and a further (possibly empty) digit run
match; `float` of the matched text never fails, so the surrounding
`try/except` is dead.  The float value is carried exactly as the decimal
value `ℚ` of the matched text. -/

/-- Value of a digit list read in base 10 (`'1','2','3' ↦ 123`). -/
def digitsToNat (ds : List Char) : ℕ :=
  ds.foldl (fun n c => 10 * n + (c.toNat - 48)) 0

/-- The match of `\d+\.?\d*` starting at `s` (assumed to begin with a digit):
maximal digit run, then optionally a dot and a maximal digit run. -/
def matchNum (s : List Char) : List Char :=
  let d1 := s.takeWhile Char.isDigit
  let r1 := s.dropWhile Char.isDigit
  if r1.head? = some '.' then d1 ++ '.' :: r1.tail.takeWhile Char.isDigit
  else d1

/-- What follows the match of `matchNum` in `s`. -/
def matchNumRest (s : List Char) : List Char :=
  let r1 := s.dropWhile Char.isDigit
  if r1.head? = some '.' then r1.tail.dropWhile Char.isDigit
  else r1

/-- `re.search` for `\d+\.?\d*`: first position with a digit wins. -/
def searchNum : List Char → Option (List Char)
  | [] => none
  | c :: rest => if c.isDigit then some (matchNum (c :: rest)) else searchNum rest

/-- `10 ^ n` on `ℕ` (kept first-order so that kernel reduction is direct). -/
def pow10 : ℕ → ℕ
  | 0 => 1
  | n + 1 => 10 * pow10 n

/-- Exact decimal value of a matched token `d1` or `d1.d2` (the value Python's
`float` denotes, rounding abstracted). -/
def decValue (t : List Char) : ℚ :=
  let d1 := t.takeWhile Char.isDigit
  match t.dropWhile Char.isDigit with
  | '.' :: d2 =>
      mkRat (digitsToNat d1 * pow10 d2.length + digitsToNat d2) (pow10 d2.length)
  | _ => (digitsToNat d1 : ℚ)

/-- `parse_area_label` (auckland/download.py): `None`/falsy/non-string input
yields `None`; otherwise the first numeric substring's value, or `None` when
no digit occurs in the label. -/
def parse_area_label : PyVal → Option ℚ
  | .vStr s => if s.isEmpty then none else (searchNum s).map decValue
  | _ => none

/-! ### `parse_auckland_address` (auckland/download.py, lines 25-48) -/

/-- The three derived address components. -/
structure ParsedAddress where
  street : Option (List Char)
  locality : Option (List Char)
  postcode : Option (List Char)
deriving DecidableEq, Repr

/-- `re.search(r'(\d{4})$', last)` matches exactly when the last four
characters exist and are digits (the only position where four digits can be
followed by the end of the string). -/
def postcodeMatch (last : List Char) : Bool :=
  4 ≤ last.length && (last.reverse.take 4).all Char.isDigit

/-- The four digits matched by `(\d{4})$`. -/
def postcodeOf (last : List Char) : List Char :=
  (last.reverse.take 4).reverse

/-- `last_part[:postcode_match.start()]`: everything before the matched
four digits. -/
def beforePostcode (last : List Char) : List Char :=
  (last.reverse.drop 4).reverse

/-- `parts = [part.strip() for part in address_string.splitlines() if part.strip()]`. -/
def addressParts (s : List Char) : List (List Char) :=
  (splitlines s).filterMap
    (fun p => let q := pyStrip p; if q.isEmpty then none else some q)

/-- `parse_auckland_address` (auckland/download.py): split on line breaks,
strip each line and drop blank ones; the first line is `street`; when at
least two lines remain, the last line yields `postcode`/`locality` via the
trailing-four-digit match. -/
def parse_auckland_address : PyVal → ParsedAddress
  | .vStr s =>
      if s.isEmpty then ⟨none, none, none⟩
      else
        let parts := addressParts s
        let street := parts.head?
        match parts with
        | _ :: _ :: _ =>
            let last := parts.getLast!
            if postcodeMatch last then
              ⟨street, some (pyStrip (beforePostcode last)), some (postcodeOf last)⟩
            else
              ⟨street, some last, none⟩
        | _ => ⟨street, none, none⟩
  | _ => ⟨none, none, none⟩

/-! ### The durable `properties` table and the staged merge
(auckland/download.py, lines 125-226; restart_db.py gives the column list)

A table is a list of rows; `INSERT ... SELECT ... FROM temp_properties
ON CONFLICT (object_id) DO UPDATE SET ... WHERE ... IS DISTINCT FROM ...`
acts row by row on the staged batch (PostgreSQL raises if one statement
touches the same target row twice, so batches with duplicate `object_id`s
are outside the executable regime; the idempotence theorem assumes the
upstream uniqueness invariant accordingly).  `rowcount` counts inserted
plus actually-updated rows; an update filtered out by the `WHERE` clause
is not counted. -/

/-- One row of the durable `properties` table, with the column types
abstracted (`List Char` for text, `ℚ` for numerics, `ℤ` for the date and
the timestamp, the parsed geometry carried as its WKT source text). -/
structure Row where
  object_id : ℤ
  property_no : Option ℤ
  physical_address : Option (List Char)
  street : Option (List Char)
  locality : Option (List Char)
  postcode : Option (List Char)
  land_value : Option ℚ
  capital_value : Option ℚ
  improvements_value : Option ℚ
  land_use_description : Option (List Char)
  property_type_description : Option (List Char)
  survey_area : Option ℚ
  calculated_area : Option ℚ
  valuation_date : Option ℤ
  last_updated : ℤ
  geom : Option (List Char)
deriving DecidableEq, Repr

/-- SQL `a IS DISTINCT FROM b`: two NULLs are not distinct, a NULL and a
value are, two values are distinct when unequal. -/
def isDistinctFrom {α : Type} [DecidableEq α] : Option α → Option α → Bool
  | none, none => false
  | none, some _ => true
  | some _, none => true
  | some x, some y => x != y

/-- Lookup in the durable table by primary key. -/
def lookupRow (t : List Row) (oid : ℤ) : Option Row :=
  t.find? (fun r => r.object_id == oid)

/-- The `DO UPDATE SET` list of the Auckland upsert: only `property_no`,
`physical_address`, `street`, `locality`, `postcode`, `capital_value`,
`valuation_date`, `last_updated` and `geom` are written; every other
column keeps the existing row's value. -/
def applyUpdate (old new : Row) : Row :=
  { old with
    property_no := new.property_no
    physical_address := new.physical_address
    street := new.street
    locality := new.locality
    postcode := new.postcode
    capital_value := new.capital_value
    valuation_date := new.valuation_date
    last_updated := new.last_updated
    geom := new.geom }

/-- The upsert's change predicate (`WHERE` clause): the conflicting update
fires only when `capital_value` or `physical_address` is
`IS DISTINCT FROM` the incoming value. -/
def changePredicate (old new : Row) : Bool :=
  isDistinctFrom old.capital_value new.capital_value ||
  isDistinctFrom old.physical_address new.physical_address

/-- One row of the set-based upsert: insert on absent key; on a conflict,
update the tracked fields when the change predicate holds, else leave the
row untouched.  Returns the new table and this row's `rowcount`
contribution (1 when inserted or actually updated, else 0). -/
def upsertRow (t : List Row) (r : Row) : List Row × ℕ :=
  match lookupRow t r.object_id with
  | none => (t ++ [r], 1)
  | some old =>
      if changePredicate old r then
        (t.map (fun x => if x.object_id == r.object_id then applyUpdate x r else x), 1)
      else (t, 0)

/-- The whole staged merge of one page: the set-based upsert applied to each
staged row, accumulating `rowcount`. -/
def mergeBatch : List Row → List Row → List Row × ℕ
  | t, [] => (t, 0)
  | t, r :: rs =>
      let p := upsertRow t r
      let q := mergeBatch p.1 rs
      (q.1, p.2 + q.2)

/-! ### Per-page transactions and the run
(auckland/download.py, lines 98-240)

Each page is processed inside one transaction: the staged merge runs
statement by statement against a tentative state; `conn.commit()` makes
the tentative state durable, while an exception leaves the durable state
as it was before the transaction and (via the outer `except` handler with
`conn.rollback()`) aborts the whole run.  A failure is modelled by the
index of the first failing row-statement, injected from outside (database
errors are environmental). -/

/-- Run the row-statements of one page's transaction.  `t0` is the durable
state saved for rollback, `tent` the tentative state, `k` the index of the
next statement; a failure plan `failIdx = some j` makes statement `j`
raise.  Returns the durable state after the transaction together with
`some rowcount` on commit, `none` on rollback. -/
def runBatchGo (t0 : List Row) (failIdx : Option ℕ) :
    List Row → ℕ → List Row → ℕ → List Row × Option ℕ
  | tent, cnt, [], k =>
      if failIdx = some k then (t0, none) else (tent, some cnt)
  | tent, cnt, r :: rs, k =>
      if failIdx = some k then (t0, none)
      else
        runBatchGo t0 failIdx (upsertRow tent r).1 (cnt + (upsertRow tent r).2) rs (k + 1)

/-- One page's transaction: execute the staged merge; on failure the
durable table is exactly the pre-transaction one (`rollback`), on success
the merged one (`commit`). -/
def runBatchTxn (t : List Row) (b : List Row) (failIdx : Option ℕ) :
    List Row × Option ℕ :=
  runBatchGo t failIdx t 0 b 0

/-- The run over a list of pages, each with its failure plan: pages commit
in order; the first failing page rolls back and aborts the run (the
returned flag is `false`), leaving every earlier page's commit durable. -/
def runSync (t : List Row) : List (List Row × Option ℕ) → List Row × ℕ × Bool
  | [] => (t, 0, true)
  | (b, fi) :: rest =>
      match runBatchTxn t b fi with
      | (t', some n) =>
          let q := runSync t' rest
          (q.1, n + q.2.1, q.2.2)
      | (t', none) => (t', 0, false)

/-- Durable state after the successful merges of a list of pages, in order. -/
def mergePages (t : List Row) (pages : List (List Row)) : List Row :=
  pages.foldl (fun acc b => (mergeBatch acc b).1) t

/-! ### Geometry encoder (auckland/download.py, lines 147-153)

`wkt_string` is built from `geometry['rings'][0]` only; a feature whose
geometry is absent, `None`, `{}` or lacks a `'rings'` key keeps
`wkt_string = None`.  An explicit empty `rings` list would make
`rings[0]` raise `IndexError`, modelled as `Except.error`.  The textual
rendering of one Python float (`f"{x}"`) is abstracted as a parameter. -/

/-- `f"{x} {y}"` for one coordinate pair, with `render` standing for
Python's float formatting. -/
def renderCoord (render : ℚ → List Char) (c : ℚ × ℚ) : List Char :=
  render c.1 ++ ' ' :: render c.2

/-- `coord_pairs = [f"{x} {y}" for x, y in ring]`. -/
def coordPairs (render : ℚ → List Char) (ring : List (ℚ × ℚ)) : List (List Char) :=
  ring.map (renderCoord render)

/-- `f"POLYGON(({', '.join(coord_pairs)}))"`. -/
def wktOfRing (render : ℚ → List Char) (ring : List (ℚ × ℚ)) : List Char :=
  "POLYGON((".toList ++ List.intercalate ", ".toList (coordPairs render ring) ++ "))".toList

/-- The `wkt_string` computation for one feature: `none` stands for a
feature with no usable `rings` (absent/null/`{}` geometry or no `'rings'`
key), `some rs` for `geometry['rings'] = rs`. -/
def encodeGeometry (render : ℚ → List Char) :
    Option (List (List (ℚ × ℚ))) → Except Unit (Option (List Char))
  | none => .ok none
  | some [] => .error ()
  | some (ring :: _) => .ok (some (wktOfRing render ring))

/-! ### Wellington `LandArea` conversion (wellington/download.py, line 113)

`float(attr.get("LandArea")) if attr.get("LandArea") else None` — unlike
the `ValuationDate` parse just above it (wrapped in `try/except`), this
`float()` call is unguarded: a truthy string that is not a float literal
raises `ValueError`, which is only caught by the run-level handler. -/

/-- The error Python's `float()` can raise. -/
inductive PyErr where
  | valueError : PyErr
  | typeError : PyErr
deriving DecidableEq, Repr

/-- A recogniser for the finite-float-literal core of Python's `float()`
grammar: optional surrounding whitespace, an optional sign, then
`digits [. digits] [exponent]` or `. digits [exponent]`
(`inf`/`nan` forms and digit-group underscores are omitted: they do not
occur in the claims' inputs and would only enlarge the accepted set). -/
def floatLitCore (s : List Char) : Bool :=
  let t := pyStrip s
  let t := match t with
    | '+' :: u => u
    | '-' :: u => u
    | u => u
  let intPart := t.takeWhile Char.isDigit
  let t2 := t.dropWhile Char.isDigit
  let hasInt := !intPart.isEmpty
  let afterFrac : Option (List Char × Bool) :=
    match t2 with
    | '.' :: u =>
        let fracPart := u.takeWhile Char.isDigit
        some (u.dropWhile Char.isDigit, hasInt || !fracPart.isEmpty)
    | u => some (u, hasInt)
  match afterFrac with
  | none => false
  | some (t3, hasDigits) =>
      if !hasDigits then false
      else
        match t3 with
        | [] => true
        | 'e' :: u | 'E' :: u =>
            let u := match u with
              | '+' :: v => v
              | '-' :: v => v
              | v => v
            !u.isEmpty && u.all Char.isDigit
        | _ => false

/-- The result of a successful `float()` call: a number's exact value, or
the float a literal string denotes (its rounding abstracted as the
literal itself). -/
inductive FloatRes where
  | val (q : ℚ) : FloatRes
  | ofLiteral (s : List Char) : FloatRes
deriving DecidableEq, Repr

/-- Python `float(v)`: numbers convert; strings convert only when they are
float literals (`ValueError` otherwise); `None` is a `TypeError`. -/
def pyFloat : PyVal → Except PyErr FloatRes
  | .vNum q => .ok (.val q)
  | .vStr s => if floatLitCore s then .ok (.ofLiteral s) else .error .valueError
  | .vNone => .error .typeError

/-- Wellington's `survey_area` staging value:
`float(attr.get("LandArea")) if attr.get("LandArea") else None`. -/
def wellingtonLandArea (v : PyVal) : Except PyErr (Option FloatRes) :=
  if pyTruthy v then (pyFloat v).map some else .ok none

/-! ### Pagination loop (auckland/download.py, lines 98-233)

`while True:` fetch at `offset`; `if not features: break`; process the
page; `if not data.get('exceededTransferLimit', False) and
num_retrieved < records_per_page: break`; `offset += records_per_page`.
The up-front total count is used only inside the progress `print`; to
make that visible the loop result carries a progress log of
`(processed so far, total)` pairs next to the processed counter.  The
loop itself is given fuel; termination is the statement that enough fuel
makes it return `some`. -/

/-- One fetched page: the feature list and the service's
`exceededTransferLimit` flag. -/
structure FetchPage where
  features : List Row
  exceededTransferLimit : Bool

/-- A page on which the loop stops: empty, or short without the
exceeded-transfer-limit flag. -/
def terminalPage (pageSize : ℕ) (p : FetchPage) : Prop :=
  p.features = [] ∨ (p.exceededTransferLimit = false ∧ p.features.length < pageSize)

instance (pageSize : ℕ) (p : FetchPage) : Decidable (terminalPage pageSize p) := by
  unfold terminalPage; infer_instance

/-- The pagination loop.  `fetch` is the feature service (offset ↦ page),
`total` the up-front count (consulted only for the progress log); returns
the processed-feature counter and the progress log, or `none` when the
fuel runs out before the service signals exhaustion. -/
def syncLoop (fetch : ℕ → FetchPage) (pageSize total : ℕ) :
    ℕ → ℕ → ℕ → Option (ℕ × List (ℕ × ℕ))
  | 0, _, _ => none
  | fuel + 1, offset, processed =>
      let p := fetch offset
      if p.features = [] then some (processed, [])
      else
        let processed' := processed + p.features.length
        if p.exceededTransferLimit = false ∧ p.features.length < pageSize then
          some (processed', [(processed', total)])
        else
          (syncLoop fetch pageSize total fuel (offset + pageSize) processed').map
            (fun q => (q.1, (processed', total) :: q.2))

/-- Forget the total-count component of a loop result (what remains is
everything the loop computes other than the progress percentages). -/
def dropTotals : Option (ℕ × List (ℕ × ℕ)) → Option (ℕ × List ℕ)
  | none => none
  | some (n, log) => some (n, log.map Prod.fst)

/-! ### Spec-side predicates and concrete instances used by the theorems -/

/-- A generic row used to instantiate the merge theorems on concrete data. -/
def sampleRow (oid : ℤ) (cv : Option ℚ) (pa : Option (List Char)) (lu : ℤ) : Row :=
  { object_id := oid, property_no := none, physical_address := pa, street := none,
    locality := none, postcode := none, land_value := none, capital_value := cv,
    improvements_value := none, land_use_description := none,
    property_type_description := none, survey_area := none, calculated_area := none,
    valuation_date := none, last_updated := lu, geom := none }

/-- The stored row for a staged record agrees with it on the change-tracked
fields `capital_value` and `physical_address`. -/
def Synced (t : List Row) (r : Row) : Prop :=
  ∃ x, lookupRow t r.object_id = some x
    ∧ x.capital_value = r.capital_value ∧ x.physical_address = r.physical_address

/-- Total `rowcount` accumulated by merging a list of pages in order. -/
def mergeCount (t : List Row) : List (List Row) → ℕ
  | [] => 0
  | b :: bs => (mergeBatch t b).2 + mergeCount (mergeBatch t b).1 bs

/-- A feature service that always answers with an empty page. -/
def constEmptyFetch : ℕ → FetchPage := fun _ => ⟨[], false⟩

/-- A token of the shape `\d+\.?\d*`: a nonempty digit run, optionally
followed by a dot and a (possibly empty) digit run. -/
def NumToken (t : List Char) : Prop :=
  ∃ d1 d2 : List Char, t = d1 ++ d2 ∧ d1 ≠ [] ∧ d1.all Char.isDigit = true ∧
    (d2 = [] ∨ ∃ ds : List Char, d2 = '.' :: ds ∧ ds.all Char.isDigit = true)


/-! ## Supporting lemmas -/

theorem find?_append_none {α : Type} {p : α → Bool} {l1 l2 : List α}
    (h : l1.find? p = none) : (l1 ++ l2).find? p = l2.find? p := by
  rw [List.find?_append, h, Option.none_or]

theorem find?_append_some {α : Type} {p : α → Bool} {l1 l2 : List α} {a : α}
    (h : l1.find? p = some a) : (l1 ++ l2).find? p = some a := by
  rw [List.find?_append, h]; rfl

/-- `applyUpdate` never changes the primary key. -/
theorem applyUpdate_object_id (old new : Row) :
    (applyUpdate old new).object_id = old.object_id := rfl

/-- Looking a key up after the conflict-update pass: the update function
preserves keys, so it commutes with `find?`. -/
theorem lookupRow_map_update (t : List Row) (r : Row) (oid : ℤ) :
    lookupRow (t.map (fun x => if x.object_id == r.object_id then applyUpdate x r else x)) oid
      = (lookupRow t oid).map
          (fun x => if x.object_id == r.object_id then applyUpdate x r else x) := by
  unfold lookupRow
  rw [List.find?_map]
  have hcomp :
      ((fun r : Row => r.object_id == oid) ∘
        fun x : Row => if x.object_id == r.object_id then applyUpdate x r else x)
      = (fun r : Row => r.object_id == oid) := by
    funext x
    by_cases hx : x.object_id == r.object_id <;> simp [Function.comp, hx, applyUpdate]
  rw [hcomp]

/-- `IS DISTINCT FROM` is exactly null-aware inequality of `Option`s. -/
theorem isDistinctFrom_eq_true_iff {α : Type} [DecidableEq α] (a b : Option α) :
    isDistinctFrom a b = true ↔ a ≠ b := by
  cases a <;> cases b <;> simp [isDistinctFrom]

theorem changePredicate_iff (old new : Row) :
    changePredicate old new = true ↔
      old.capital_value ≠ new.capital_value ∨
      old.physical_address ≠ new.physical_address := by
  simp [changePredicate, isDistinctFrom_eq_true_iff]

/-- The `rowcount` contribution of one staged row hitting an existing key. -/
theorem upsertRow_count_of_found (t : List Row) (r old : Row)
    (h : lookupRow t r.object_id = some old) :
    (upsertRow t r).2 = if changePredicate old r then 1 else 0 := by
  unfold upsertRow
  rw [h]
  by_cases hc : changePredicate old r = true <;> simp [hc]

/-- The table produced by one staged row whose conflicting update fires. -/
theorem upsertRow_table_of_update (t : List Row) (r old : Row)
    (h : lookupRow t r.object_id = some old) (hc : changePredicate old r = true) :
    (upsertRow t r).1
      = t.map (fun x => if x.object_id == r.object_id then applyUpdate x r else x) := by
  unfold upsertRow
  rw [h]
  simp [hc]

/-- A fired update rewrites the found row to `applyUpdate old r`. -/
theorem lookup_after_update (t : List Row) (r old : Row)
    (h : lookupRow t r.object_id = some old) (hc : changePredicate old r = true) :
    lookupRow (upsertRow t r).1 r.object_id = some (applyUpdate old r) := by
  have h' : List.find? (fun x : Row => x.object_id == r.object_id) t = some old := h
  have hkey : (old.object_id == r.object_id) = true :=
    @List.find?_some Row (fun x : Row => x.object_id == r.object_id) old t h' 
  have hk : old.object_id = r.object_id := by simpa using hkey
  rw [upsertRow_table_of_update t r old h hc, lookupRow_map_update, h]
  simp [hk]

/-- C2: for a record whose `object_id` already exists in the durable table,
the merge's update fires (counts in `rowcount`) iff the incoming
`capital_value` or `physical_address` `IS DISTINCT FROM` the stored one,
and that predicate is exactly null-aware `Option` inequality; in
particular a re-merge with a changed `capital_value` rewrites the row
(including `last_updated`, which takes the staged value) and is counted. -/
theorem upsert_update_gating (t : List Row) (r old : Row)
    (h : lookupRow t r.object_id = some old) :
    ((upsertRow t r).2 = 1 ↔
        (isDistinctFrom old.capital_value r.capital_value ||
         isDistinctFrom old.physical_address r.physical_address) = true)
    ∧ ((upsertRow t r).2 = 1 ↔
        old.capital_value ≠ r.capital_value ∨ old.physical_address ≠ r.physical_address)
    ∧ (old.capital_value ≠ r.capital_value →
        (upsertRow t r).2 = 1
        ∧ lookupRow (upsertRow t r).1 r.object_id = some (applyUpdate old r)
        ∧ (applyUpdate old r).last_updated = r.last_updated) := by
  have hcount := upsertRow_count_of_found t r old h
  have hfire : (upsertRow t r).2 = 1 ↔ changePredicate old r = true := by
    rw [hcount]
    by_cases hc : changePredicate old r = true <;> simp [hc]
  refine ⟨?_, ?_, ?_⟩
  · rw [hfire]; exact Iff.rfl
  · rw [hfire]; exact changePredicate_iff old r
  · intro hcv
    have hc : changePredicate old r = true := (changePredicate_iff old r).mpr (Or.inl hcv)
    exact ⟨hfire.mpr hc, lookup_after_update t r old h hc, rfl⟩

/-- Witness for C2 at a concrete one-row table and staged row with a
changed `capital_value`. -/
theorem upsert_update_gating_witness :
    (lookupRow [sampleRow 1 (some 100) none 10] (sampleRow 1 (some 200) none 20).object_id
        = some (sampleRow 1 (some 100) none 10))
    ∧ (((upsertRow [sampleRow 1 (some 100) none 10] (sampleRow 1 (some 200) none 20)).2 = 1 ↔
        (isDistinctFrom (sampleRow 1 (some 100) none 10).capital_value
            (sampleRow 1 (some 200) none 20).capital_value ||
         isDistinctFrom (sampleRow 1 (some 100) none 10).physical_address
            (sampleRow 1 (some 200) none 20).physical_address) = true)
    ∧ (((upsertRow [sampleRow 1 (some 100) none 10] (sampleRow 1 (some 200) none 20)).2 = 1 ↔
        (sampleRow 1 (some 100) none 10).capital_value
            ≠ (sampleRow 1 (some 200) none 20).capital_value ∨
        (sampleRow 1 (some 100) none 10).physical_address
            ≠ (sampleRow 1 (some 200) none 20).physical_address))
    ∧ ((sampleRow 1 (some 100) none 10).capital_value
            ≠ (sampleRow 1 (some 200) none 20).capital_value →
        ((upsertRow [sampleRow 1 (some 100) none 10] (sampleRow 1 (some 200) none 20)).2 = 1
        ∧ lookupRow (upsertRow [sampleRow 1 (some 100) none 10]
              (sampleRow 1 (some 200) none 20)).1
              (sampleRow 1 (some 200) none 20).object_id
            = some (applyUpdate (sampleRow 1 (some 100) none 10)
                (sampleRow 1 (some 200) none 20))
        ∧ (applyUpdate (sampleRow 1 (some 100) none 10)
              (sampleRow 1 (some 200) none 20)).last_updated
            = (sampleRow 1 (some 200) none 20).last_updated))) :=
  ⟨by decide,
   upsert_update_gating [sampleRow 1 (some 100) none 10]
     (sampleRow 1 (some 200) none 20) (sampleRow 1 (some 100) none 10) (by decide)⟩

/-- C6: when the conflict-update fires, only the `DO UPDATE SET` fields
(`property_no`, `physical_address`, `street`, `locality`, `postcode`,
`capital_value`, `valuation_date`, `last_updated`, `geom`) take the staged
values; `object_id` and the remaining columns (`land_value`,
`improvements_value`, `land_use_description`, `property_type_description`,
`survey_area`, `calculated_area`) keep the values originally inserted. -/
theorem upsert_frame (t : List Row) (r old : Row)
    (h : lookupRow t r.object_id = some old)
    (hc : changePredicate old r = true) :
    lookupRow (upsertRow t r).1 r.object_id = some (applyUpdate old r)
    ∧ (applyUpdate old r).object_id = old.object_id
    ∧ (applyUpdate old r).land_value = old.land_value
    ∧ (applyUpdate old r).improvements_value = old.improvements_value
    ∧ (applyUpdate old r).land_use_description = old.land_use_description
    ∧ (applyUpdate old r).property_type_description = old.property_type_description
    ∧ (applyUpdate old r).survey_area = old.survey_area
    ∧ (applyUpdate old r).calculated_area = old.calculated_area
    ∧ (applyUpdate old r).property_no = r.property_no
    ∧ (applyUpdate old r).physical_address = r.physical_address
    ∧ (applyUpdate old r).street = r.street
    ∧ (applyUpdate old r).locality = r.locality
    ∧ (applyUpdate old r).postcode = r.postcode
    ∧ (applyUpdate old r).capital_value = r.capital_value
    ∧ (applyUpdate old r).valuation_date = r.valuation_date
    ∧ (applyUpdate old r).last_updated = r.last_updated
    ∧ (applyUpdate old r).geom = r.geom :=
  ⟨lookup_after_update t r old h hc, rfl, rfl, rfl, rfl, rfl, rfl, rfl, rfl,
   rfl, rfl, rfl, rfl, rfl, rfl, rfl, rfl⟩

/-- Witness for C6 at a concrete conflicting update. -/
theorem upsert_frame_witness :
    (lookupRow [sampleRow 2 (some 5) none 0] (sampleRow 2 (some 7) none 1).object_id
        = some (sampleRow 2 (some 5) none 0))
    ∧ changePredicate (sampleRow 2 (some 5) none 0) (sampleRow 2 (some 7) none 1) = true
    ∧ lookupRow (upsertRow [sampleRow 2 (some 5) none 0] (sampleRow 2 (some 7) none 1)).1
        (sampleRow 2 (some 7) none 1).object_id
        = some (applyUpdate (sampleRow 2 (some 5) none 0) (sampleRow 2 (some 7) none 1)) :=
  ⟨by decide, by decide,
   (upsert_frame [sampleRow 2 (some 5) none 0] (sampleRow 2 (some 7) none 1)
      (sampleRow 2 (some 5) none 0) (by decide) (by decide)).1⟩

/-! ### Idempotence of the staged merge -/

theorem isDistinctFrom_self {α : Type} [DecidableEq α] (a : Option α) :
    isDistinctFrom a a = false := by
  cases a <;> simp [isDistinctFrom]

theorem upsertRow_insert (t : List Row) (r : Row)
    (hl : lookupRow t r.object_id = none) : upsertRow t r = (t ++ [r], 1) := by
  unfold upsertRow
  rw [hl]

theorem upsertRow_noop (t : List Row) (r old : Row)
    (hl : lookupRow t r.object_id = some old)
    (hc : changePredicate old r = false) : upsertRow t r = (t, 0) := by
  unfold upsertRow
  rw [hl]
  simp [hc]

theorem lookupRow_append_self (t : List Row) (r : Row)
    (hl : lookupRow t r.object_id = none) :
    lookupRow (t ++ [r]) r.object_id = some r := by
  unfold lookupRow at hl ⊢
  rw [find?_append_none hl]
  simp [List.find?]

/-- Upserting a row with a different key does not change what a key maps to. -/
theorem lookupRow_upsert_other (t : List Row) (r' : Row) (oid : ℤ)
    (hne : oid ≠ r'.object_id) :
    lookupRow (upsertRow t r').1 oid = lookupRow t oid := by
  cases hl : lookupRow t r'.object_id with
  | none =>
      rw [upsertRow_insert t r' hl]
      unfold lookupRow
      rw [List.find?_append]
      cases hf : List.find? (fun x : Row => x.object_id == oid) t with
      | some a => rfl
      | none =>
          have : (r'.object_id == oid) = false := by
            simp
            exact fun he => hne he.symm
          simp [List.find?, this]
  | some old =>
      by_cases hc : changePredicate old r' = true
      · rw [upsertRow_table_of_update t r' old hl hc, lookupRow_map_update]
        cases hf : lookupRow t oid with
        | none => rfl
        | some x =>
            have hx : (x.object_id == oid) = true :=
              @List.find?_some Row (fun y : Row => y.object_id == oid) x t hf
            have hxe : x.object_id = oid := by simpa using hx
            have hne2 : (x.object_id == r'.object_id) = false := by
              simp [hxe]
              exact hne
            simp [hne2]
            intro h
            exact absurd (hxe.symm.trans h) hne
      · rw [upsertRow_noop t r' old hl (by simpa using hc)]

/-- After one staged row is upserted, the table is synced with it. -/
theorem synced_after_upsert (t : List Row) (r : Row) : Synced (upsertRow t r).1 r := by
  cases hl : lookupRow t r.object_id with
  | none =>
      rw [upsertRow_insert t r hl]
      exact ⟨r, lookupRow_append_self t r hl, rfl, rfl⟩
  | some old =>
      by_cases hc : changePredicate old r = true
      · exact ⟨applyUpdate old r, lookup_after_update t r old hl hc, rfl, rfl⟩
      · rw [upsertRow_noop t r old hl (by simpa using hc)]
        obtain ⟨h1, h2⟩ :
            old.capital_value = r.capital_value
            ∧ old.physical_address = r.physical_address := by
          by_contra hcon
          apply hc
          rw [changePredicate_iff]
          tauto
        exact ⟨old, hl, h1, h2⟩

theorem synced_preserved (t : List Row) (r r' : Row) (hs : Synced t r)
    (hne : r.object_id ≠ r'.object_id) : Synced (upsertRow t r').1 r := by
  obtain ⟨x, hx, h1, h2⟩ := hs
  exact ⟨x, by rw [lookupRow_upsert_other t r' r.object_id hne]; exact hx, h1, h2⟩

/-- A synced staged row is filtered out by the change predicate: the table
is untouched and `rowcount` gets no contribution. -/
theorem synced_noop (t : List Row) (r : Row) (hs : Synced t r) :
    upsertRow t r = (t, 0) := by
  obtain ⟨x, hx, h1, h2⟩ := hs
  exact upsertRow_noop t r x hx
    (by simp [changePredicate, h1, h2, isDistinctFrom_self])

theorem mergeBatch_fst_cons (t : List Row) (r : Row) (rs : List Row) :
    (mergeBatch t (r :: rs)).1 = (mergeBatch (upsertRow t r).1 rs).1 := by
  simp [mergeBatch]

theorem synced_preserved_batch (t : List Row) (r : Row) (b : List Row)
    (hs : Synced t r) (hni : r.object_id ∉ b.map (fun x => x.object_id)) :
    Synced (mergeBatch t b).1 r := by
  induction b generalizing t with
  | nil => exact hs
  | cons r' rs ih =>
      simp only [List.map_cons, List.mem_cons, not_or] at hni
      rw [mergeBatch_fst_cons]
      exact ih (upsertRow t r').1 (synced_preserved t r r' hs hni.1) hni.2

/-- After the first merge of a batch with pairwise-distinct keys, the table
is synced with every row of the batch. -/
theorem mergeBatch_all_synced (t : List Row) (b : List Row)
    (hnd : (b.map (fun x => x.object_id)).Nodup) :
    ∀ r ∈ b, Synced (mergeBatch t b).1 r := by
  induction b generalizing t with
  | nil => intro r hr; cases hr
  | cons r' rs ih =>
      intro r hr
      rw [List.map_cons, List.nodup_cons] at hnd
      rw [mergeBatch_fst_cons]
      rcases List.mem_cons.mp hr with rfl | hr
      · exact synced_preserved_batch (upsertRow t r).1 r rs
          (synced_after_upsert t r) hnd.1
      · exact ih (upsertRow t r').1 hnd.2 r hr

/-- Merging a batch the table is already synced with is a no-op with
`rowcount` zero. -/
theorem mergeBatch_noop (t : List Row) (b : List Row)
    (hs : ∀ r ∈ b, Synced t r) : mergeBatch t b = (t, 0) := by
  induction b with
  | nil => rfl
  | cons r rs ih =>
      have h0 : upsertRow t r = (t, 0) := synced_noop t r (hs r (by simp))
      have hrest : mergeBatch t rs = (t, 0) :=
        ih (fun r' hr' => hs r' (by simp [hr']))
      simp [mergeBatch, h0, hrest]

/-- C1: merging the same batch of normalized records twice in a row is
idempotent — since no tracked field differs any more, the second merge
leaves the durable table exactly as it was (every row, `last_updated`
included) and its rows-affected count is zero.  The batch's `object_id`s
are assumed pairwise distinct (the upstream uniqueness invariant; a batch
with duplicate keys would make the set-based upsert itself error out). -/
theorem merge_idempotent (t : List Row) (b : List Row)
    (hnd : (b.map (fun x => x.object_id)).Nodup) :
    mergeBatch (mergeBatch t b).1 b = ((mergeBatch t b).1, 0) :=
  mergeBatch_noop (mergeBatch t b).1 b (mergeBatch_all_synced t b hnd)

/-- Witness for C1 on a concrete two-record batch over the empty table. -/
theorem merge_idempotent_witness :
    (([sampleRow 1 (some 1) none 5,
       sampleRow 2 none (some ['x']) 6].map (fun x => x.object_id)).Nodup)
    ∧ mergeBatch
        (mergeBatch [] [sampleRow 1 (some 1) none 5,
                        sampleRow 2 none (some ['x']) 6]).1
        [sampleRow 1 (some 1) none 5, sampleRow 2 none (some ['x']) 6]
      = ((mergeBatch [] [sampleRow 1 (some 1) none 5,
                         sampleRow 2 none (some ['x']) 6]).1, 0) :=
  ⟨by decide,
   merge_idempotent [] [sampleRow 1 (some 1) none 5,
                        sampleRow 2 none (some ['x']) 6] (by decide)⟩

/-! ### Per-page atomicity and cross-page durability -/

/-- A transaction whose failure plan hits one of its statements (or the
commit point) rolls back: the durable table is exactly the saved one,
whatever tentative work was done. -/
theorem runBatchGo_fail (t0 : List Row) (j : ℕ) :
    ∀ (rs tent : List Row) (cnt k : ℕ), k ≤ j → j ≤ k + rs.length →
      runBatchGo t0 (some j) tent cnt rs k = (t0, none) := by
  intro rs
  induction rs with
  | nil =>
      intro tent cnt k h1 h2
      have hjk : j = k := by simpa using le_antisymm (by simpa using h2) h1
      simp [runBatchGo, hjk]
  | cons r rs ih =>
      intro tent cnt k h1 h2
      by_cases he : j = k
      · simp [runBatchGo, he]
      · have hk : k + 1 ≤ j := by omega
        simp only [runBatchGo]
        rw [if_neg (by simp [he])]
        exact ih _ _ (k + 1) hk (by simpa [Nat.add_comm, Nat.add_left_comm] using h2)

/-- A transaction with no failure commits the whole staged merge. -/
theorem runBatchGo_none (t0 : List Row) :
    ∀ (rs tent : List Row) (cnt k : ℕ),
      runBatchGo t0 none tent cnt rs k
        = ((mergeBatch tent rs).1, some (cnt + (mergeBatch tent rs).2)) := by
  intro rs
  induction rs with
  | nil =>
      intro tent cnt k
      simp [runBatchGo, mergeBatch]
  | cons r rs ih =>
      intro tent cnt k
      simp only [runBatchGo]
      rw [if_neg (by simp), ih]
      simp [mergeBatch, Nat.add_assoc]

theorem runBatchTxn_none (t : List Row) (b : List Row) :
    runBatchTxn t b none = ((mergeBatch t b).1, some (mergeBatch t b).2) := by
  unfold runBatchTxn
  rw [runBatchGo_none]
  simp

theorem runBatchTxn_fail (t : List Row) (b : List Row) (i : ℕ) (hi : i ≤ b.length) :
    runBatchTxn t b (some i) = (t, none) :=
  runBatchGo_fail t i b t 0 0 (Nat.zero_le i) (by simpa using hi)

theorem runSync_cons_ok (t : List Row) (b : List Row)
    (rest : List (List Row × Option ℕ)) :
    runSync t ((b, (none : Option ℕ)) :: rest)
      = ((runSync (mergeBatch t b).1 rest).1,
         (mergeBatch t b).2 + (runSync (mergeBatch t b).1 rest).2.1,
         (runSync (mergeBatch t b).1 rest).2.2) := by
  simp [runSync, runBatchTxn_none]

theorem runSync_cons_fail (t : List Row) (bk : List Row) (i : ℕ)
    (rest : List (List Row × Option ℕ)) (hi : i ≤ bk.length) :
    runSync t ((bk, some i) :: rest) = (t, 0, false) := by
  simp [runSync, runBatchTxn_fail t bk i hi]

/-- C3: each page's merge is all-or-nothing — a statement failure inside a
batch rolls the batch's transaction back to the pre-batch durable state —
and a failure while processing page N leaves pages 1..N-1 committed and
durable: the run's final table is exactly the fold of the successful
prefix, its counter the prefix's rowcounts, and the run reports failure. -/
theorem batch_atomic_pages_durable (t : List Row) (bs : List (List Row))
    (bk : List Row) (i : ℕ) (rest : List (List Row × Option ℕ))
    (hi : i ≤ bk.length) :
    (∀ t' : List Row, runBatchTxn t' bk (some i) = (t', none))
    ∧ runSync t (bs.map (fun b => (b, (none : Option ℕ))) ++ (bk, some i) :: rest)
        = (mergePages t bs, mergeCount t bs, false) := by
  refine ⟨fun t' => runBatchTxn_fail t' bk i hi, ?_⟩
  induction bs generalizing t with
  | nil =>
      simpa [mergePages, mergeCount] using runSync_cons_fail t bk i rest hi
  | cons b bs ih =>
      rw [List.map_cons, List.cons_append, runSync_cons_ok, ih (mergeBatch t b).1]
      simp [mergePages, mergeCount]

/-- Witness for C3: one committed page, then a failing page. -/
theorem batch_atomic_pages_durable_witness :
    (0 ≤ [sampleRow 2 (some 2) none 0].length)
    ∧ ((∀ t' : List Row,
          runBatchTxn t' [sampleRow 2 (some 2) none 0] (some 0) = (t', none))
    ∧ runSync []
        ([[sampleRow 1 (some 1) none 0]].map (fun b => (b, (none : Option ℕ)))
          ++ ([sampleRow 2 (some 2) none 0], some 0) :: [])
        = (mergePages [] [[sampleRow 1 (some 1) none 0]],
           mergeCount [] [[sampleRow 1 (some 1) none 0]], false)) :=
  ⟨by decide,
   batch_atomic_pages_durable [] [[sampleRow 1 (some 1) none 0]]
     [sampleRow 2 (some 2) none 0] 0 [] (by decide)⟩

/-! ### Pagination termination and independence from the up-front count -/

/-- If the page `k` steps ahead is terminal, fuel `k + 1` suffices. -/
theorem syncLoop_isSome (fetch : ℕ → FetchPage) (pageSize total : ℕ) :
    ∀ (k off processed : ℕ), terminalPage pageSize (fetch (off + k * pageSize)) →
      ∀ fuel, k < fuel → (syncLoop fetch pageSize total fuel off processed).isSome = true := by
  intro k
  induction k with
  | zero =>
      intro off processed hterm fuel hf
      match fuel, hf with
      | fuel + 1, _ =>
        simp only [Nat.zero_mul, Nat.add_zero] at hterm
        simp only [syncLoop]
        by_cases hemp : (fetch off).features = []
        · simp [hemp]
        · rcases hterm with hemp2 | hbrk
          · exact absurd hemp2 hemp
          · simp [hemp, hbrk]
  | succ k ih =>
      intro off processed hterm fuel hf
      match fuel, hf with
      | fuel + 1, hf =>
        simp only [syncLoop]
        by_cases hemp : (fetch off).features = []
        · simp [hemp]
        · simp only [hemp, if_false]
          by_cases hbrk : (fetch off).exceededTransferLimit = false ∧
              (fetch off).features.length < pageSize
          · simp [hbrk]
          · have hterm2 : terminalPage pageSize
                (fetch (off + pageSize + k * pageSize)) := by
              have : off + pageSize + k * pageSize = off + (k + 1) * pageSize := by ring
              rw [this]
              exact hterm
            have hrec := ih (off + pageSize)
              (processed + (fetch off).features.length) hterm2 fuel (by omega)
            simp [hbrk, hrec]

theorem dropTotals_map_cons (e1 e2 : ℕ × ℕ) (he : e1.1 = e2.1)
    (o1 o2 : Option (ℕ × List (ℕ × ℕ))) (h : dropTotals o1 = dropTotals o2) :
    dropTotals (o1.map (fun q => (q.1, e1 :: q.2)))
      = dropTotals (o2.map (fun q => (q.1, e2 :: q.2))) := by
  cases o1 with
  | none =>
      cases o2 with
      | none => rfl
      | some q2 => simp [dropTotals] at h
  | some q1 =>
      cases o2 with
      | none => simp [dropTotals] at h
      | some q2 =>
          simp [dropTotals] at h ⊢
          exact ⟨h.1, he, h.2⟩

/-- The up-front total count affects only the progress log's totals. -/
theorem syncLoop_total_only_logged (fetch : ℕ → FetchPage) (pageSize : ℕ) :
    ∀ (fuel off processed t1 t2 : ℕ),
      dropTotals (syncLoop fetch pageSize t1 fuel off processed)
        = dropTotals (syncLoop fetch pageSize t2 fuel off processed) := by
  intro fuel
  induction fuel with
  | zero => intro off processed t1 t2; rfl
  | succ fuel ih =>
      intro off processed t1 t2
      simp only [syncLoop]
      by_cases hemp : (fetch off).features = []
      · simp [hemp]
      · simp only [hemp, if_false]
        by_cases hbrk : (fetch off).exceededTransferLimit = false ∧
            (fetch off).features.length < pageSize
        · simp [hbrk, dropTotals]
        · simp only [hbrk, if_false]
          exact dropTotals_map_cons
            (processed + (fetch off).features.length, t1)
            (processed + (fetch off).features.length, t2) rfl _ _
            (ih (off + pageSize) (processed + (fetch off).features.length) t1 t2)

/-- C7: when the service eventually returns an empty page or a short page
without the exceeded-transfer-limit signal, the pagination loop
terminates; and the up-front total count is never consulted for
termination — every component of the loop's result except the logged
progress totals is the same for any two values of the total. -/
theorem pagination_terminates_without_total (fetch : ℕ → FetchPage)
    (pageSize total : ℕ) (k off processed : ℕ)
    (hterm : terminalPage pageSize (fetch (off + k * pageSize))) :
    (∀ fuel, k < fuel →
        (syncLoop fetch pageSize total fuel off processed).isSome = true)
    ∧ (∀ fuel t1 t2, dropTotals (syncLoop fetch pageSize t1 fuel off processed)
        = dropTotals (syncLoop fetch pageSize t2 fuel off processed)) :=
  ⟨fun fuel hf => syncLoop_isSome fetch pageSize total k off processed hterm fuel hf,
   fun fuel t1 t2 => syncLoop_total_only_logged fetch pageSize fuel off processed t1 t2⟩

/-- Witness for C7: an immediately-terminal service. -/
theorem pagination_terminates_without_total_witness :
    terminalPage 2 (constEmptyFetch (0 + 0 * 2))
    ∧ ((∀ fuel, 0 < fuel → (syncLoop constEmptyFetch 2 7 fuel 0 0).isSome = true)
    ∧ (∀ fuel t1 t2, dropTotals (syncLoop constEmptyFetch 2 t1 fuel 0 0)
        = dropTotals (syncLoop constEmptyFetch 2 t2 fuel 0 0))) :=
  ⟨Or.inl rfl, pagination_terminates_without_total constEmptyFetch 2 7 0 0 0 (Or.inl rfl)⟩

/-! ### Geometry encoding and the Wellington LandArea slip -/

/-- C8: a ring of N vertices encodes to a `POLYGON((...))` literal whose
pair list has exactly N entries, the i-th rendering the i-th vertex (so
original order, and no implicit closing point is inserted); only the first
ring is consulted (any interior rings are discarded); a feature with no
usable geometry encodes to a null literal. -/
theorem geometry_encoding (render : ℚ → List Char)
    (ring : List (ℚ × ℚ)) (rest : List (List (ℚ × ℚ))) :
    encodeGeometry render (some (ring :: rest)) = .ok (some (wktOfRing render ring))
    ∧ encodeGeometry render (some (ring :: rest)) = encodeGeometry render (some [ring])
    ∧ wktOfRing render ring
        = "POLYGON((".toList
            ++ List.intercalate ", ".toList (coordPairs render ring) ++ "))".toList
    ∧ (coordPairs render ring).length = ring.length
    ∧ (∀ i : ℕ, (coordPairs render ring)[i]? = (ring[i]?).map (renderCoord render))
    ∧ encodeGeometry render none = .ok none := by
  refine ⟨rfl, rfl, rfl, ?_, ?_, rfl⟩
  · simp [coordPairs]
  · intro i
    simp [coordPairs]

/-- C5 is a code bug, witnessed here: the Wellington normaliser's
`float(attr.get("LandArea"))` is not guarded, so the truthy non-numeric
string `"abc"` raises `ValueError` (aborting the batch) instead of
degrading the field to null as the spec's `FieldDegraded` policy and the
adjacent guarded date parse intend. -/
theorem wellington_land_area_raises :
    pyTruthy (.vStr ['a', 'b', 'c']) = true
    ∧ wellingtonLandArea (.vStr ['a', 'b', 'c']) = .error .valueError
    ∧ wellingtonLandArea (.vStr ['1', '2', '.', '5']) = .ok (some (.ofLiteral ['1', '2', '.', '5']))
    ∧ wellingtonLandArea .vNone = .ok none := by
  exact ⟨rfl, rfl, rfl, rfl⟩

/-! ### Address decomposition: the trailing-4-digit match -/

/-- `(\d{4})$` matches `L` exactly when `L` splits as `pre ++ tok` with a
4-character all-digit suffix `tok`. -/
theorem postcodeMatch_iff (L : List Char) :
    postcodeMatch L = true ↔
      ∃ pre tok : List Char,
        L = pre ++ tok ∧ tok.length = 4 ∧ tok.all Char.isDigit = true := by
  constructor
  · intro h
    unfold postcodeMatch at h
    rw [Bool.and_eq_true, decide_eq_true_eq] at h
    refine ⟨(L.reverse.drop 4).reverse, (L.reverse.take 4).reverse, ?_, ?_, ?_⟩
    · conv_lhs => rw [← L.reverse_reverse, ← List.take_append_drop 4 L.reverse]
      rw [List.reverse_append]
    · rw [List.length_reverse, List.length_take, List.length_reverse]
      omega
    · rw [List.all_reverse]
      exact h.2
  · rintro ⟨pre, tok, rfl, hlen, hdig⟩
    unfold postcodeMatch
    rw [Bool.and_eq_true, decide_eq_true_eq]
    constructor
    · rw [List.length_append]
      omega
    · rw [List.reverse_append, List.take_left' (by rw [List.length_reverse]; exact hlen),
        List.all_reverse]
      exact hdig

/-- Under the 4-digit-suffix decomposition, the matched group is the suffix
and `last_part[:match.start()]` is the prefix. -/
theorem postcode_parts (pre tok : List Char) (hlen : tok.length = 4) :
    postcodeOf (pre ++ tok) = tok ∧ beforePostcode (pre ++ tok) = pre := by
  unfold postcodeOf beforePostcode
  rw [List.reverse_append,
    List.take_left' (by rw [List.length_reverse]; exact hlen),
    List.drop_left' (by rw [List.length_reverse]; exact hlen),
    List.reverse_reverse, List.reverse_reverse]
  exact ⟨rfl, rfl⟩

theorem getLast!_eq_of_getLast? {α : Type} [Inhabited α] :
    ∀ (l : List α) (x : α), l.getLast? = some x → l.getLast! = x := by
  intro l
  induction l with
  | nil => intro x h; simp [List.getLast?] at h
  | cons a l ih =>
      intro x h
      cases l with
      | nil =>
          simp [List.getLast?, List.getLast] at h
          simp [List.getLast!_cons, h]
      | cons b l2 =>
          rw [List.getLast?_cons_cons] at h
          rw [List.getLast!_cons, List.getLastD_eq_getLast?, h]
          rfl

theorem addressParts_nil : addressParts [] = [] := rfl

theorem parse_address_nil (s : List Char) (hne : s.isEmpty = false)
    (h : addressParts s = []) :
    parse_auckland_address (.vStr s) = ⟨none, none, none⟩ := by
  simp [parse_auckland_address, hne, h]

theorem parse_address_one (s : List Char) (hne : s.isEmpty = false)
    (a : List Char) (h : addressParts s = [a]) :
    parse_auckland_address (.vStr s) = ⟨some a, none, none⟩ := by
  simp [parse_auckland_address, hne, h]

theorem parse_address_cons2 (s : List Char) (hne : s.isEmpty = false)
    (a b : List Char) (rs : List (List Char)) (h : addressParts s = a :: b :: rs) :
    parse_auckland_address (.vStr s)
      = if postcodeMatch ((a :: b :: rs).getLast!) then
          ⟨some a, some (pyStrip (beforePostcode ((a :: b :: rs).getLast!))),
           some (postcodeOf ((a :: b :: rs).getLast!))⟩
        else ⟨some a, some ((a :: b :: rs).getLast!), none⟩ := by
  simp only [parse_auckland_address, hne, Bool.false_eq_true, if_false, h,
    List.head?_cons]

/-- `street` is always the head of the non-blank stripped lines. -/
theorem parse_street_head (s : List Char) :
    (parse_auckland_address (.vStr s)).street = (addressParts s).head? := by
  by_cases hs : s.isEmpty = true
  · have hsnil : s = [] := by cases s with | nil => rfl | cons c cs => simp at hs
    subst hsnil
    rfl
  · have hne : s.isEmpty = false := by simpa using hs
    rcases hparts : addressParts s with _ | ⟨a, tl⟩
    · rw [parse_address_nil s hne hparts]
      rfl
    · cases tl with
      | nil =>
          rw [parse_address_one s hne a hparts]
          rfl
      | cons b rs =>
          rw [parse_address_cons2 s hne a b rs hparts]
          by_cases hm : postcodeMatch ((a :: b :: rs).getLast!) = true <;> simp [hm]

/-- With fewer than two non-blank lines, `locality` and `postcode` are null. -/
theorem parse_short (s : List Char) (h : (addressParts s).length ≤ 1) :
    (parse_auckland_address (.vStr s)).locality = none
    ∧ (parse_auckland_address (.vStr s)).postcode = none := by
  by_cases hs : s.isEmpty = true
  · have hsnil : s = [] := by cases s with | nil => rfl | cons c cs => simp at hs
    subst hsnil
    exact ⟨rfl, rfl⟩
  · have hne : s.isEmpty = false := by simpa using hs
    rcases hparts : addressParts s with _ | ⟨a, tl⟩
    · rw [parse_address_nil s hne hparts]
      exact ⟨rfl, rfl⟩
    · cases tl with
      | nil =>
          rw [parse_address_one s hne a hparts]
          exact ⟨rfl, rfl⟩
      | cons b rs =>
          rw [hparts] at h
          simp at h

/-- With two or more non-blank lines and a 4-digit suffix on the last one,
the suffix is the postcode and the trimmed prefix the locality. -/
theorem parse_pos (s L pre tok : List Char)
    (h2 : 2 ≤ (addressParts s).length)
    (hL : (addressParts s).getLast? = some L)
    (hdec : L = pre ++ tok) (hlen : tok.length = 4)
    (hdig : tok.all Char.isDigit = true) :
    (parse_auckland_address (.vStr s)).postcode = some tok
    ∧ (parse_auckland_address (.vStr s)).locality = some (pyStrip pre) := by
  by_cases hs : s.isEmpty = true
  · have hsnil : s = [] := by cases s with | nil => rfl | cons c cs => simp at hs
    subst hsnil
    rw [addressParts_nil] at h2
    simp at h2
  · have hne : s.isEmpty = false := by simpa using hs
    rcases hparts : addressParts s with _ | ⟨a, tl⟩
    · rw [hparts] at h2
      simp at h2
    · cases tl with
      | nil =>
          rw [hparts] at h2
          simp at h2
      | cons b rs =>
          rw [parse_address_cons2 s hne a b rs hparts]
          rw [hparts] at hL
          have hLL : (a :: b :: rs).getLast! = L := getLast!_eq_of_getLast? _ L hL
          subst hdec
          have hm : postcodeMatch ((a :: b :: rs).getLast!) = true := by
            rw [hLL]
            exact (postcodeMatch_iff _).mpr ⟨pre, tok, rfl, hlen, hdig⟩
          have hp := postcode_parts pre tok hlen
          rw [if_pos hm]
          exact ⟨by simp [hLL, hp.1], by simp [hLL, hp.2]⟩

/-- With two or more non-blank lines and no 4-digit suffix on the last one,
the postcode stays null and the whole last line is the locality. -/
theorem parse_neg (s L : List Char)
    (h2 : 2 ≤ (addressParts s).length)
    (hL : (addressParts s).getLast? = some L)
    (hnone : ¬∃ pre tok : List Char,
        L = pre ++ tok ∧ tok.length = 4 ∧ tok.all Char.isDigit = true) :
    (parse_auckland_address (.vStr s)).postcode = none
    ∧ (parse_auckland_address (.vStr s)).locality = some L := by
  by_cases hs : s.isEmpty = true
  · have hsnil : s = [] := by cases s with | nil => rfl | cons c cs => simp at hs
    subst hsnil
    rw [addressParts_nil] at h2
    simp at h2
  · have hne : s.isEmpty = false := by simpa using hs
    rcases hparts : addressParts s with _ | ⟨a, tl⟩
    · rw [hparts] at h2
      simp at h2
    · cases tl with
      | nil =>
          rw [hparts] at h2
          simp at h2
      | cons b rs =>
          rw [parse_address_cons2 s hne a b rs hparts]
          rw [hparts] at hL
          have hLL : (a :: b :: rs).getLast! = L := getLast!_eq_of_getLast? _ L hL
          have hm : postcodeMatch ((a :: b :: rs).getLast!) = false := by
            rw [hLL]
            by_contra hmm
            exact hnone ((postcodeMatch_iff L).mp (by simpa using hmm))
          rw [if_neg (by simp [hm])]
          exact ⟨rfl, by rw [hLL]⟩

/-- C4: address decomposition splits on line breaks and discards blank
lines (the `addressParts` list); the first non-blank line becomes
`street`; with at most one line, `locality` and `postcode` stay null;
with two or more lines, a final line carrying a 4-digit all-digit suffix
yields that suffix as `postcode` and the trimmed remainder of the line as
`locality`, while a final line with no such suffix yields a null
`postcode` and the whole (already trimmed) final line as `locality`. -/
theorem address_decomposition (s : List Char) :
    (parse_auckland_address (.vStr s)).street = (addressParts s).head?
    ∧ ((addressParts s).length ≤ 1 →
        (parse_auckland_address (.vStr s)).locality = none
        ∧ (parse_auckland_address (.vStr s)).postcode = none)
    ∧ (∀ L pre tok : List Char, 2 ≤ (addressParts s).length →
        (addressParts s).getLast? = some L →
        L = pre ++ tok → tok.length = 4 → tok.all Char.isDigit = true →
        (parse_auckland_address (.vStr s)).postcode = some tok
        ∧ (parse_auckland_address (.vStr s)).locality = some (pyStrip pre))
    ∧ (∀ L : List Char, 2 ≤ (addressParts s).length →
        (addressParts s).getLast? = some L →
        (¬∃ pre tok : List Char,
            L = pre ++ tok ∧ tok.length = 4 ∧ tok.all Char.isDigit = true) →
        (parse_auckland_address (.vStr s)).postcode = none
        ∧ (parse_auckland_address (.vStr s)).locality = some L) :=
  ⟨parse_street_head s, parse_short s,
   fun L pre tok h2 hL hdec hlen hdig => parse_pos s L pre tok h2 hL hdec hlen hdig,
   fun L h2 hL hnone => parse_neg s L h2 hL hnone⟩

/-- Witness for C4 on the documented example address. -/
theorem address_decomposition_witness :
    (2 ≤ (addressParts "7 Ward Street\rPukekohe\rAuckland 2120".toList).length)
    ∧ ((addressParts "7 Ward Street\rPukekohe\rAuckland 2120".toList).getLast?
        = some "Auckland 2120".toList)
    ∧ "Auckland 2120".toList = "Auckland ".toList ++ "2120".toList
    ∧ (parse_auckland_address
          (.vStr "7 Ward Street\rPukekohe\rAuckland 2120".toList)).postcode
        = some "2120".toList
    ∧ (parse_auckland_address
          (.vStr "7 Ward Street\rPukekohe\rAuckland 2120".toList)).locality
        = some (pyStrip "Auckland ".toList) := by
  refine ⟨by decide, by decide, by decide, ?_⟩
  exact (address_decomposition "7 Ward Street\rPukekohe\rAuckland 2120".toList).2.2.1
    "Auckland 2120".toList "Auckland ".toList "2120".toList
    (by decide) (by decide) (by decide) (by decide) (by decide)

/-- C10: when the final non-blank line ends in a run of five or more
digits, the `(\d{4})$` search anchors on the last four characters only:
the postcode is the final four digits of the run, and the locality is the
rest of the line — the remaining leading digits of the run included —
trimmed.  (E.g. a final line `Auckland 12345` yields postcode `2345` and
locality `Auckland 1`.) -/
theorem postcode_last_four_of_digit_run (s L pre run : List Char)
    (h2 : 2 ≤ (addressParts s).length)
    (hL : (addressParts s).getLast? = some L)
    (hdec : L = pre ++ run) (hrun : run.all Char.isDigit = true)
    (hlen : 5 ≤ run.length) :
    (parse_auckland_address (.vStr s)).postcode = some ((run.reverse.take 4).reverse)
    ∧ (parse_auckland_address (.vStr s)).locality
        = some (pyStrip (pre ++ (run.reverse.drop 4).reverse))
    ∧ (run.reverse.drop 4).reverse ≠ [] := by
  have hsplit : run = (run.reverse.drop 4).reverse ++ (run.reverse.take 4).reverse := by
    conv_lhs => rw [← run.reverse_reverse, ← List.take_append_drop 4 run.reverse]
    rw [List.reverse_append]
  have htok : ((run.reverse.take 4).reverse).length = 4 := by
    rw [List.length_reverse, List.length_take, List.length_reverse]
    omega
  have hdig : ((run.reverse.take 4).reverse).all Char.isDigit = true := by
    rw [List.all_reverse, List.all_eq_true]
    intro x hx
    have hx2 : x ∈ run.reverse := List.mem_of_mem_take hx
    rw [List.mem_reverse] at hx2
    exact (List.all_eq_true.mp hrun) x hx2
  have hdec2 : L = (pre ++ (run.reverse.drop 4).reverse) ++ (run.reverse.take 4).reverse := by
    rw [List.append_assoc, ← hsplit]
    exact hdec
  have hp := parse_pos s L (pre ++ (run.reverse.drop 4).reverse)
    ((run.reverse.take 4).reverse) h2 hL hdec2 htok hdig
  refine ⟨hp.1, hp.2, ?_⟩
  have hlen1 : ((run.reverse.drop 4).reverse).length = run.length - 4 := by
    rw [List.length_reverse, List.length_drop, List.length_reverse]
  intro hnil
  rw [hnil] at hlen1
  simp at hlen1
  omega

/-- Witness for C10 on a final line ending in a 5-digit run. -/
theorem postcode_last_four_of_digit_run_witness :
    (2 ≤ (addressParts "7 Ward Street\rAuckland 12345".toList).length)
    ∧ ((addressParts "7 Ward Street\rAuckland 12345".toList).getLast?
        = some "Auckland 12345".toList)
    ∧ "Auckland 12345".toList = "Auckland ".toList ++ "12345".toList
    ∧ (parse_auckland_address (.vStr "7 Ward Street\rAuckland 12345".toList)).postcode
        = some (("12345".toList.reverse.take 4).reverse)
    ∧ (parse_auckland_address (.vStr "7 Ward Street\rAuckland 12345".toList)).locality
        = some (pyStrip ("Auckland ".toList ++ ("12345".toList.reverse.drop 4).reverse)) := by
  refine ⟨by decide, by decide, by decide, ?_⟩
  have h := postcode_last_four_of_digit_run "7 Ward Street\rAuckland 12345".toList
    "Auckland 12345".toList "Auckland ".toList "12345".toList
    (by decide) (by decide) (by decide) (by decide) (by decide)
  exact ⟨h.1, h.2.1⟩

/-! ### Area-label parsing: the leftmost numeric token -/

theorem dropWhile_head_false {α : Type} (p : α → Bool) (l : List α) :
    ∀ c ∈ (l.dropWhile p).take 1, p c = false := by
  intro c hc
  cases hdl : l.dropWhile p with
  | nil =>
      rw [hdl] at hc
      simp at hc
  | cons x xs =>
      rw [hdl] at hc
      simp at hc
      subst hc
      have hh := List.head?_dropWhile_not p l
      rw [hdl] at hh
      simpa using hh

/-- The match starting at a digit covers a prefix of the input: the input
splits into match and remainder, the match is a numeric token, and the
remainder does not start with a digit (maximality). -/
theorem matchNum_decomp (c : Char) (cs : List Char) (hc : c.isDigit = true) :
    (c :: cs) = matchNum (c :: cs) ++ matchNumRest (c :: cs)
    ∧ NumToken (matchNum (c :: cs))
    ∧ (∀ x ∈ (matchNumRest (c :: cs)).take 1, x.isDigit = false) := by
  have hsplit : (c :: cs).takeWhile Char.isDigit ++ (c :: cs).dropWhile Char.isDigit
      = c :: cs := List.takeWhile_append_dropWhile Char.isDigit (c :: cs)
  have hd1 : (c :: cs).takeWhile Char.isDigit = c :: cs.takeWhile Char.isDigit :=
    List.takeWhile_cons_of_pos hc
  by_cases hh : ((c :: cs).dropWhile Char.isDigit).head? = some '.'
  · cases hdl : (c :: cs).dropWhile Char.isDigit with
    | nil => rw [hdl] at hh; simp at hh
    | cons x xs =>
        rw [hdl] at hh
        simp at hh
        subst hh
        unfold matchNum matchNumRest
        rw [if_pos (by rw [hdl]; rfl), if_pos (by rw [hdl]; rfl), hdl]
        simp only [List.tail_cons]
        refine ⟨?_, ?_, ?_⟩
        · conv_lhs => rw [← hsplit, hdl]
          rw [List.append_assoc, List.cons_append,
            List.takeWhile_append_dropWhile]
        · exact ⟨(c :: cs).takeWhile Char.isDigit, '.' :: xs.takeWhile Char.isDigit,
            rfl, by rw [hd1]; exact List.cons_ne_nil c _, List.all_takeWhile,
            Or.inr ⟨xs.takeWhile Char.isDigit, rfl, List.all_takeWhile⟩⟩
        · exact dropWhile_head_false Char.isDigit xs
  · unfold matchNum matchNumRest
    rw [if_neg hh, if_neg hh]
    refine ⟨hsplit.symm, ?_, ?_⟩
    · exact ⟨(c :: cs).takeWhile Char.isDigit, [], (List.append_nil _).symm,
        by rw [hd1]; exact List.cons_ne_nil c _, List.all_takeWhile, Or.inl rfl⟩
    · exact dropWhile_head_false Char.isDigit (c :: cs)

theorem searchNum_none (s : List Char) (h : ∀ c ∈ s, c.isDigit = false) :
    searchNum s = none := by
  induction s with
  | nil => rfl
  | cons c cs ih =>
      have hc : c.isDigit = false := h c (by simp)
      simp only [searchNum, hc]
      rw [if_neg (by simp)]
      exact ih (fun x hx => h x (by simp [hx]))

/-- `re.search(r'(\d+\.?\d*)', s)` characterised: when `s` holds a digit,
the search returns a numeric token `t` such that `s = pre ++ t ++ post`
with a digit-free `pre` (leftmost) and a `post` not starting with a digit
(maximal). -/
theorem searchNum_spec (s : List Char) (h : ∃ c ∈ s, c.isDigit = true) :
    ∃ pre t post : List Char,
      s = pre ++ t ++ post
      ∧ (∀ c ∈ pre, c.isDigit = false)
      ∧ NumToken t
      ∧ (∀ c ∈ post.take 1, c.isDigit = false)
      ∧ searchNum s = some t := by
  induction s with
  | nil => simp at h
  | cons c cs ih =>
      by_cases hc : c.isDigit = true
      · obtain ⟨heq, htok, hpost⟩ := matchNum_decomp c cs hc
        refine ⟨[], matchNum (c :: cs), matchNumRest (c :: cs),
          by simpa using heq, by simp, htok, hpost, ?_⟩
        simp only [searchNum]
        rw [if_pos hc]
      · have h2 : ∃ x ∈ cs, x.isDigit = true := by
          rcases h with ⟨x, hx, hxd⟩
          rcases List.mem_cons.mp hx with rfl | hx2
          · exact absurd hxd hc
          · exact ⟨x, hx2, hxd⟩
        obtain ⟨pre, t, post, heq, hpre, htok, hpost, hsearch⟩ := ih h2
        refine ⟨c :: pre, t, post, by rw [heq]; simp [List.append_assoc],
          ?_, htok, hpost, ?_⟩
        · intro x hx
          rcases List.mem_cons.mp hx with rfl | hx2
          · simpa using hc
          · exact hpre x hx2
        · simp only [searchNum]
          rw [if_neg hc]
          exact hsearch

/-- C9: for every label string containing a digit, `parse_area_label`
returns the decimal value of the first (leftmost, maximal) numeric
substring; for digit-free labels, for `None` and for non-string input it
returns null — and, being total, it never raises. -/
theorem area_label_parsing :
    (∀ s : List Char, (∃ c ∈ s, c.isDigit = true) →
        ∃ pre t post : List Char,
          s = pre ++ t ++ post
          ∧ (∀ c ∈ pre, c.isDigit = false)
          ∧ NumToken t
          ∧ (∀ c ∈ post.take 1, c.isDigit = false)
          ∧ parse_area_label (.vStr s) = some (decValue t))
    ∧ (∀ s : List Char, (∀ c ∈ s, c.isDigit = false) →
        parse_area_label (.vStr s) = none)
    ∧ parse_area_label .vNone = none
    ∧ (∀ q : ℚ, parse_area_label (.vNum q) = none) := by
  refine ⟨?_, ?_, rfl, fun q => rfl⟩
  · intro s h
    obtain ⟨pre, t, post, heq, hpre, htok, hpost, hsearch⟩ := searchNum_spec s h
    have hne : s.isEmpty = false := by
      rcases h with ⟨x, hx, _⟩
      cases s with
      | nil => simp at hx
      | cons a l => rfl
    refine ⟨pre, t, post, heq, hpre, htok, hpost, ?_⟩
    simp only [parse_area_label, hne, Bool.false_eq_true, if_false, hsearch]
    rfl
  · intro s h
    cases s with
    | nil => rfl
    | cons a l =>
        simp only [parse_area_label, List.isEmpty_cons, Bool.false_eq_true,
          if_false, searchNum_none (a :: l) h]
        rfl

/-- Witness for C9 on the label `"1234 m2"`. -/
theorem area_label_parsing_witness :
    (∃ c ∈ "1234 m2".toList, c.isDigit = true)
    ∧ (∃ pre t post : List Char,
        "1234 m2".toList = pre ++ t ++ post
        ∧ (∀ c ∈ pre, c.isDigit = false)
        ∧ NumToken t
        ∧ (∀ c ∈ post.take 1, c.isDigit = false)
        ∧ parse_area_label (.vStr "1234 m2".toList) = some (decValue t)) :=
  ⟨by decide, area_label_parsing.1 "1234 m2".toList (by decide)⟩

end WhereToLive
